import Mathlib

/-!
Verification of the credential-refresh reconciliation daemon (cfwg-zt).

This file gives a shallow embedding of the parts of the Go source relevant
to the frozen claims:

* `wireguard` package: `mergeWithExistingConfig`, `buildWireGuardConfig`,
  `UpdateConfig` (file `src/unnamed/part_000`);
* `cloudflare` package: `GetDeviceStatus` (file `src/unnamed/part_002`);
* `cmd/cfwg-zt/main.go`: the backoff policy and the per-cycle failure
  accounting of `runService`.

Go strings are modelled as `List Char`; the Go standard-library helpers
used by the source (`strings.Split(s, "\n")`, `strings.TrimSpace`,
`strings.HasPrefix`, `strings.Contains`) are embedded as executable
functions on `List Char` below.  Filesystem effects in `UpdateConfig` are
modelled by explicit state passing over an abstract filesystem record with
fault-injection flags for each fallible I/O call, in source order.
-/

namespace Cfwg

/-! ### Go string primitives -/

/-- Go `unicode.IsSpace`: the ASCII whitespace characters together with the
Unicode `White_Space` code points recognised by the Go standard library. -/
def goIsSpace (c : Char) : Bool :=
  c = ' ' || c = '\t' || c = '\n' || c = '\u000B' || c = '\u000C' || c = '\r' ||
  c = '\u0085' || c = '\u00A0' || c = '\u1680' ||
  ('\u2000' ≤ c && c ≤ '\u200A') ||
  c = '\u2028' || c = '\u2029' || c = '\u202F' || c = '\u205F' || c = '\u3000'

/-- Go `strings.TrimSpace`, right half: drop trailing whitespace. -/
def goTrimRight (l : List Char) : List Char :=
  (l.reverse.dropWhile goIsSpace).reverse

/-- Go `strings.TrimSpace`: drop leading and trailing whitespace. -/
def goTrim (l : List Char) : List Char :=
  goTrimRight (l.dropWhile goIsSpace)

/-- Go `strings.Split(s, "\n")`: cut the character stream at every newline.
`splitNL []` is `[[]]`, matching Go's `strings.Split("", "\n") = [""]`. -/
def splitNL : List Char → List (List Char)
  | [] => [[]]
  | c :: cs =>
    if c = '\n' then [] :: splitNL cs
    else
      match splitNL cs with
      | [] => [[c]]
      | r :: rs => (c :: r) :: rs

/-- Append a newline after every line and concatenate, i.e. the text the Go
merge loop builds by writing `line + "\n"` for each emitted line. -/
def joinNL : List (List Char) → List Char
  | [] => []
  | l :: ls => l ++ '\n' :: joinNL ls

/-- Go `strings.Contains(hay, needle)` on character lists. -/
def goContains (needle : List Char) : List Char → Bool
  | [] => needle.isEmpty
  | c :: t => needle.isPrefixOf (c :: t) || goContains needle t

/-! ### Credential record (`cloudflare.WireGuardConfig`) -/

/-- The credential set fetched from the identity service
(`cloudflare.WireGuardConfig` in `src/unnamed/part_002`). -/
structure WireGuardConfig where
  PrivateKey       : String
  PublicKey        : String
  Endpoint         : String
  EndpointPort     : Int
  AllowedIPs       : List String
  PeerPublicKey    : String
  PeerPresharedKey : String
  DNS              : List String
deriving DecidableEq

/-! ### `buildWireGuardConfig` (src/unnamed/part_000, lines 122-192)

The Go function validates the four required fields, then renders a fixed
`text/template`.  For this constant template the parse and execute error
branches are dead code (the template is syntactically valid and every
referenced field exists on the struct), so the embedding is the guard
followed by the rendered text.  Template semantics used: a `range` over a
list emits the elements joined by `", "`; an `if` over a list is taken when
the list is nonempty; an `if` over a string is taken when the string is
nonempty; trim markers eat the adjacent newline. -/

def sepJoin (xs : List String) : String := String.intercalate ", " xs

def buildWireGuardConfig (cfg : WireGuardConfig) : String :=
  if cfg.PrivateKey = "" ∨ cfg.PublicKey = "" ∨ cfg.PeerPublicKey = "" ∨ cfg.Endpoint = "" then
    ""
  else
    "[Interface]\nPrivateKey = " ++ cfg.PrivateKey ++
    "\n# Note: Address and DNS settings are now managed via the UDM Pro UI" ++
    "\n# The following lines are maintained for compatibility with UI-created config" ++
    "\nAddress = 100.64.0.1/32" ++
    (if cfg.DNS ≠ [] then "\nDNS = " ++ sepJoin cfg.DNS else "") ++
    "\nMTU = 1280\n\n[Peer]\nPublicKey = " ++ cfg.PeerPublicKey ++
    (if cfg.PeerPresharedKey ≠ "" then "\nPresharedKey = " ++ cfg.PeerPresharedKey else "") ++
    "\n# AllowedIPs is now managed via the UDM Pro UI's policy-based routing" ++
    "\nAllowedIPs = " ++ sepJoin cfg.AllowedIPs ++
    "\nEndpoint = " ++ cfg.Endpoint ++ ":" ++ Int.repr cfg.EndpointPort ++
    "\nPersistentKeepalive = 25\n"

/-! ### Backoff policy (cmd/cfwg-zt/main.go, lines 127-136) -/

def maxConsecutiveFailures : Nat := 5

/-- `time.Duration(math.Min(float64(n-max+1)*2, 30)) * time.Minute`:
minutes slept in the backoff branch.  The counter `n` is at least
`maxConsecutiveFailures` when this is evaluated, so `Nat` subtraction is
exact and `math.Min` over these small integers is exact. -/
def backoffSleepMinutes (n : Nat) : Nat :=
  min ((n - maxConsecutiveFailures + 1) * 2) 30

/-- The loop-head backoff check: when the consecutive-failure counter has
reached `maxConsecutiveFailures`, sleep `backoffSleepMinutes` and reset the
counter to `maxConsecutiveFailures - 2`; otherwise do nothing.  Returns
`(minutes slept, counter after the check)`. -/
def backoffCheck (n : Nat) : Nat × Nat :=
  if maxConsecutiveFailures ≤ n then (backoffSleepMinutes n, maxConsecutiveFailures - 2)
  else (0, n)

/-! ### One reconciliation cycle (cmd/cfwg-zt/main.go, lines 138-208)

The cycle body after the backoff check, with every external step abstracted
to its observable outcome.  `statusErr` records whether
`IsWireGuardRunning` returned an error; the Go code only logs that error
and then branches on the boolean it returned alongside it. -/

structure CycleOutcomes where
  authOk    : Bool
  fetchOk   : Bool
  statusErr : Bool
  isRunning : Bool
  updateOk  : Bool
  applyOk   : Bool
deriving DecidableEq

structure CycleResult where
  failures     : Nat
  sleepMinutes : Nat
  wroteConfig  : Bool
  applied      : Bool
deriving DecidableEq

def runCycle (o : CycleOutcomes) (failures : Nat) (refreshIntervalMinutes : Nat) : CycleResult :=
  if o.authOk = false then ⟨failures + 1, 1, false, false⟩
  else if o.fetchOk = false then ⟨failures + 1, 1, false, false⟩
  else if o.isRunning = false then ⟨failures, 5, false, false⟩
  else if o.updateOk = false then ⟨failures + 1, 1, false, false⟩
  else if o.applyOk = false then ⟨failures + 1, 1, true, false⟩
  else ⟨0, refreshIntervalMinutes, true, true⟩

/-! ### `GetDeviceStatus` (src/unnamed/part_002, lines 221-260) -/

/-- The JSON payload decoded by `GetDeviceStatus` on a 200 response. -/
structure DeviceStatusResult where
  success     : Bool
  active      : Bool
  warpEnabled : Bool
  lastSeen    : String
deriving DecidableEq

/-- `GetDeviceStatus`, with the transport and decoder abstracted to their
outcomes: `httpSendErr` is a transport failure of `httpClient.Do`,
`statusCode` the HTTP status, `decoded` the result of decoding the body. -/
def GetDeviceStatus (httpSendErr : Bool) (statusCode : Nat)
    (decoded : Except String DeviceStatusResult) : Except String Bool :=
  if httpSendErr then .error "error sending request"
  else if statusCode = 200 then
    match decoded with
    | .error _ => .error "error decoding response"
    | .ok r => .ok (r.active && r.warpEnabled)
  else .error "device status check failed"

/-! ### `mergeWithExistingConfig` (src/unnamed/part_000, lines 196-256)

The Go loop splits the existing text on newlines and walks it with two
booleans `inInterface` / `inPeer`.  Each iteration appends zero, one or
(were both booleans ever true, which never happens from the initial state)
two strings of the form `chunk + "\n"` to the output; `emitLines` returns
the list of chunks one input line contributes and `lineNext` the state
update.  `mergeWithExistingConfig` is the concatenation in input order,
followed by the `PersistentKeepalive` append when the original text does
not contain that word. -/

structure SectionSt where
  inInterface : Bool
  inPeer      : Bool
deriving DecidableEq

/-- `"PrivateKey = " + cfg.PrivateKey` (the replacement written in the
interface section). -/
def privLine (cfg : WireGuardConfig) : List Char :=
  "PrivateKey = ".data ++ cfg.PrivateKey.data

/-- `"PublicKey = " + cfg.PeerPublicKey` (peer section). -/
def pubLine (cfg : WireGuardConfig) : List Char :=
  "PublicKey = ".data ++ cfg.PeerPublicKey.data

/-- `"PresharedKey = " + cfg.PeerPresharedKey` (peer section). -/
def pskLine (cfg : WireGuardConfig) : List Char :=
  "PresharedKey = ".data ++ cfg.PeerPresharedKey.data

/-- `fmt.Sprintf("Endpoint = %s:%d", cfg.Endpoint, cfg.EndpointPort)`. -/
def endpLine (cfg : WireGuardConfig) : List Char :=
  "Endpoint = ".data ++ cfg.Endpoint.data ++ ':' :: (Int.repr cfg.EndpointPort).data

/-- The keepalive line appended when the original text lacks one. -/
def kaLine : List Char := "PersistentKeepalive = 25".data

/-- The output lines one iteration of the Go merge loop writes for `line`
in state `st` (each is written as `chunk + "\n"`). -/
def emitLines (cfg : WireGuardConfig) (st : SectionSt) (line : List Char) :
    List (List Char) :=
  let t := goTrim line
  if t = "[Interface]".data then [line]
  else if t = "[Peer]".data then [line]
  else if t = [] then [line]
  else
    (if st.inInterface then
      if "PrivateKey".data.isPrefixOf t then [privLine cfg] else [line]
     else []) ++
    (if st.inPeer then
      if "PublicKey".data.isPrefixOf t then [pubLine cfg]
      else if "PresharedKey".data.isPrefixOf t ∧ cfg.PeerPresharedKey ≠ "" then [pskLine cfg]
      else if "Endpoint".data.isPrefixOf t then [endpLine cfg]
      else [line]
     else [])

/-- The section-state update of one iteration of the Go merge loop. -/
def lineNext (st : SectionSt) (line : List Char) : SectionSt :=
  let t := goTrim line
  if t = "[Interface]".data then ⟨true, false⟩
  else if t = "[Peer]".data then ⟨false, true⟩
  else st

/-- The output lines of the whole merge loop, in input order. -/
def linesOut (cfg : WireGuardConfig) : List (List Char) → SectionSt → List (List Char)
  | [], _ => []
  | l :: ls, st => emitLines cfg st l ++ linesOut cfg ls (lineNext st l)

/-- The section state after the merge loop has consumed `ls`. -/
def finalState (ls : List (List Char)) (st : SectionSt) : SectionSt :=
  ls.foldl lineNext st

def mergeWithExistingConfig (existingConfig : String) (cfg : WireGuardConfig) : String :=
  let body := joinNL (linesOut cfg (splitNL existingConfig.data) ⟨false, false⟩)
  let tail := if goContains "PersistentKeepalive".data existingConfig.data then []
              else kaLine ++ ['\n']
  ⟨body ++ tail⟩

/-! ### `UpdateConfig` (src/unnamed/part_000, lines 67-118)

The filesystem is abstracted to the content of the target tunnel config
file plus the multiset of backup contents written so far (the backup path
embeds a timestamp, so successive backups never overwrite each other);
each fallible I/O call of the Go function gets a fault-injection flag, in
source order: `os.MkdirAll`, `os.ReadFile` of the existing config,
`os.WriteFile` of the backup, `os.WriteFile` of the new config. -/

structure FileSystem where
  target  : Option String
  backups : List String
deriving DecidableEq

structure IOFaults where
  mkdirFails       : Bool
  readFails        : Bool
  backupWriteFails : Bool
  configWriteFails : Bool
deriving DecidableEq

def UpdateConfig (fs : FileSystem) (faults : IOFaults) (cfg : WireGuardConfig) :
    Except String Unit × FileSystem :=
  if faults.mkdirFails then (.error "failed to create backup directory", fs)
  else
    match fs.target with
    | some existingConfig =>
      if faults.readFails then (.error "failed to read existing config for backup", fs)
      else if faults.backupWriteFails then (.error "failed to create backup", fs)
      else
        let fs1 : FileSystem := { fs with backups := existingConfig :: fs.backups }
        let content := if existingConfig.length > 0 then
                         mergeWithExistingConfig existingConfig cfg
                       else buildWireGuardConfig cfg
        if faults.configWriteFails then
          (.error "failed to write WireGuard configuration", fs1)
        else (.ok (), { fs1 with target := some content })
    | none =>
      if faults.configWriteFails then
        (.error "failed to write WireGuard configuration", fs)
      else (.ok (), { fs with target := some (buildWireGuardConfig cfg) })

/-! ## Claims C3, C4, C8, C10 -/

/-- C3: at the top of a cycle with consecutive-failure count `n ≥ 5`, the
loop sleeps `min ((n - 5 + 1) * 2) 30` minutes — so counts 5, 6, 7 sleep
2, 4, 6 minutes, capped at 30 — and then sets the counter to
`maxConsecutiveFailures - 2 = 3`, not to zero. -/
theorem C3_backoff (n : Nat) (h : maxConsecutiveFailures ≤ n) :
    backoffCheck n = (min ((n - 5 + 1) * 2) 30, 3) ∧
    backoffSleepMinutes 5 = 2 ∧ backoffSleepMinutes 6 = 4 ∧
    backoffSleepMinutes 7 = 6 ∧ backoffSleepMinutes n ≤ 30 ∧
    (backoffCheck n).2 ≠ 0 := by
  have h5 : 5 ≤ n := h
  refine ⟨?_, by decide, by decide, by decide, ?_, ?_⟩
  · simp only [backoffCheck, backoffSleepMinutes, maxConsecutiveFailures, if_pos h5]
  · exact min_le_right _ _
  · simp only [backoffCheck, maxConsecutiveFailures, if_pos h5]
    decide

theorem C3_backoff_witness :
    maxConsecutiveFailures ≤ 9 ∧
    (backoffCheck 9 = (min ((9 - 5 + 1) * 2) 30, 3) ∧
     backoffSleepMinutes 5 = 2 ∧ backoffSleepMinutes 6 = 4 ∧
     backoffSleepMinutes 7 = 6 ∧ backoffSleepMinutes 9 ≤ 30 ∧
     (backoffCheck 9).2 ≠ 0) :=
  ⟨by decide, C3_backoff 9 (by decide)⟩

/-- C4 as stated is false: a failed service-status check (the tunnel
reported not running) restarts the cycle with the consecutive-failure
counter unchanged (0, not 0 + 1) and a 5-minute sleep, contradicting the
claim that every listed step's failure increments the counter by exactly
one. -/
theorem C4_counterexample :
    runCycle ⟨true, true, false, false, true, true⟩ 0 10 = ⟨0, 5, false, false⟩ ∧
    (runCycle ⟨true, true, false, false, true, true⟩ 0 10).failures ≠ 0 + 1 := by
  decide

/-- C4 amended: an authentication, credential-fetch, config-write or
service-apply failure increments the consecutive-failure counter by
exactly one, sleeps 1 minute and restarts the cycle without applying
anything; a failed service-status check restarts the cycle without
incrementing the counter and sleeps 5 minutes; credentials are applied
only when every step succeeded, and then the counter resets to 0. -/
theorem C4_cycle_failure_accounting (o : CycleOutcomes) (n r : Nat) :
    (o.authOk = false → runCycle o n r = ⟨n + 1, 1, false, false⟩) ∧
    (o.authOk = true → o.fetchOk = false → runCycle o n r = ⟨n + 1, 1, false, false⟩) ∧
    (o.authOk = true → o.fetchOk = true → o.isRunning = false →
      runCycle o n r = ⟨n, 5, false, false⟩) ∧
    (o.authOk = true → o.fetchOk = true → o.isRunning = true → o.updateOk = false →
      runCycle o n r = ⟨n + 1, 1, false, false⟩) ∧
    (o.authOk = true → o.fetchOk = true → o.isRunning = true → o.updateOk = true →
      o.applyOk = false → runCycle o n r = ⟨n + 1, 1, true, false⟩) ∧
    ((runCycle o n r).applied = true →
      o.authOk = true ∧ o.fetchOk = true ∧ o.isRunning = true ∧ o.updateOk = true ∧
      o.applyOk = true ∧ (runCycle o n r).failures = 0) := by
  obtain ⟨a, f, se, ir, u, ap⟩ := o
  cases a <;> cases f <;> cases ir <;> cases u <;> cases ap <;>
    simp [runCycle]

theorem C4_cycle_failure_accounting_witness :
    (⟨true, true, false, true, false, true⟩ : CycleOutcomes).authOk = true ∧
    runCycle ⟨true, true, false, true, false, true⟩ 2 10 = ⟨2 + 1, 1, false, false⟩ :=
  ⟨by decide,
   ((C4_cycle_failure_accounting ⟨true, true, false, true, false, true⟩ 2 10).2.2.2.1
      (by decide) (by decide) (by decide) (by decide))⟩

/-- C8: the render step returns the empty string whenever any of the four
required credential fields is empty; it never emits a partial body. -/
theorem C8_render_requires_fields (cfg : WireGuardConfig)
    (h : cfg.PrivateKey = "" ∨ cfg.PublicKey = "" ∨ cfg.PeerPublicKey = "" ∨
         cfg.Endpoint = "") :
    buildWireGuardConfig cfg = "" := by
  unfold buildWireGuardConfig
  rw [if_pos h]

theorem C8_render_requires_fields_witness :
    (("" : String) = "" ∨ ("pub" : String) = "" ∨ ("peer" : String) = "" ∨
      ("host" : String) = "") ∧
    buildWireGuardConfig ⟨"", "pub", "host", 2408, [], "peer", "", []⟩ = "" :=
  ⟨Or.inl rfl,
   C8_render_requires_fields ⟨"", "pub", "host", 2408, [], "peer", "", []⟩ (Or.inl rfl)⟩

/-- C10: the device is reported active exactly when the transport
succeeded, the service answered 200, the payload decoded, and both the
`active` and `warp_enabled` flags are true; a 200 response with either
flag false yields `false` with no error. -/
theorem C10_device_status (httpSendErr : Bool) (statusCode : Nat)
    (decoded : Except String DeviceStatusResult) (r : DeviceStatusResult) :
    (httpSendErr = false → statusCode = 200 → decoded = .ok r →
      GetDeviceStatus httpSendErr statusCode decoded = .ok (r.active && r.warpEnabled)) ∧
    (GetDeviceStatus httpSendErr statusCode decoded = .ok true →
      httpSendErr = false ∧ statusCode = 200 ∧
      ∃ r0, decoded = .ok r0 ∧ r0.active = true ∧ r0.warpEnabled = true) ∧
    (httpSendErr = false → statusCode = 200 → decoded = .ok r →
      (r.active = false ∨ r.warpEnabled = false) →
      GetDeviceStatus httpSendErr statusCode decoded = .ok false) := by
  refine ⟨?_, ?_, ?_⟩
  · rintro h1 h2 h3
    simp [GetDeviceStatus, h1, h2, h3]
  · intro h
    cases hhe : httpSendErr with
    | true => simp [GetDeviceStatus, hhe] at h
    | false =>
      by_cases hsc : statusCode = 200
      · cases hdec : decoded with
        | error e => simp [GetDeviceStatus, hhe, hsc, hdec] at h
        | ok r0 =>
          refine ⟨rfl, hsc, r0, rfl, ?_⟩
          simp [GetDeviceStatus, hhe, hsc, hdec] at h
          exact ⟨h.1, h.2⟩
      · simp [GetDeviceStatus, hhe, hsc] at h
  · rintro h1 h2 h3 h4
    have : (r.active && r.warpEnabled) = false := by
      rcases h4 with h | h <;> simp [h]
    simp [GetDeviceStatus, h1, h2, h3, this]

theorem C10_device_status_witness :
    GetDeviceStatus false 200 (.ok ⟨true, true, false, ""⟩) = .ok (true && false) :=
  (C10_device_status false 200 (.ok ⟨true, true, false, ""⟩)
    ⟨true, true, false, ""⟩).1 rfl rfl rfl


/-! ## Merge-loop lemmas

Branch equations for `emitLines` / `lineNext`, and the homomorphism of the
loop over list append.  These are shared by the theorems for C1, C2 and
C9. -/

lemma emitLines_header_iface (cfg : WireGuardConfig) (st : SectionSt) (line : List Char)
    (h : goTrim line = "[Interface]".data) : emitLines cfg st line = [line] := by
  simp [emitLines, h]

lemma emitLines_header_peer (cfg : WireGuardConfig) (st : SectionSt) (line : List Char)
    (h1 : goTrim line ≠ "[Interface]".data) (h2 : goTrim line = "[Peer]".data) :
    emitLines cfg st line = [line] := by
  simp [emitLines, h1, h2]

lemma emitLines_blank (cfg : WireGuardConfig) (st : SectionSt) (line : List Char)
    (h1 : goTrim line ≠ "[Interface]".data) (h2 : goTrim line ≠ "[Peer]".data)
    (h3 : goTrim line = []) : emitLines cfg st line = [line] := by
  simp [emitLines, h1, h2, h3]

lemma emitLines_outside (cfg : WireGuardConfig) (line : List Char)
    (h1 : goTrim line ≠ "[Interface]".data) (h2 : goTrim line ≠ "[Peer]".data)
    (h3 : goTrim line ≠ []) : emitLines cfg ⟨false, false⟩ line = [] := by
  simp [emitLines, h1, h2, h3]

lemma emitLines_iface (cfg : WireGuardConfig) (line : List Char)
    (h1 : goTrim line ≠ "[Interface]".data) (h2 : goTrim line ≠ "[Peer]".data)
    (h3 : goTrim line ≠ []) :
    emitLines cfg ⟨true, false⟩ line =
      (if "PrivateKey".data.isPrefixOf (goTrim line) then [privLine cfg] else [line]) := by
  simp [emitLines, h1, h2, h3]

lemma emitLines_peer (cfg : WireGuardConfig) (line : List Char)
    (h1 : goTrim line ≠ "[Interface]".data) (h2 : goTrim line ≠ "[Peer]".data)
    (h3 : goTrim line ≠ []) :
    emitLines cfg ⟨false, true⟩ line =
      (if "PublicKey".data.isPrefixOf (goTrim line) then [pubLine cfg]
       else if "PresharedKey".data.isPrefixOf (goTrim line) ∧ cfg.PeerPresharedKey ≠ "" then
         [pskLine cfg]
       else if "Endpoint".data.isPrefixOf (goTrim line) then [endpLine cfg]
       else [line]) := by
  simp [emitLines, h1, h2, h3]

lemma lineNext_header_iface (st : SectionSt) (line : List Char)
    (h : goTrim line = "[Interface]".data) : lineNext st line = ⟨true, false⟩ := by
  simp [lineNext, h]

lemma lineNext_header_peer (st : SectionSt) (line : List Char)
    (h1 : goTrim line ≠ "[Interface]".data) (h2 : goTrim line = "[Peer]".data) :
    lineNext st line = ⟨false, true⟩ := by
  simp [lineNext, h1, h2]

lemma lineNext_other (st : SectionSt) (line : List Char)
    (h1 : goTrim line ≠ "[Interface]".data) (h2 : goTrim line ≠ "[Peer]".data) :
    lineNext st line = st := by
  simp [lineNext, h1, h2]

lemma finalState_cons (l : List Char) (ls : List (List Char)) (st : SectionSt) :
    finalState (l :: ls) st = finalState ls (lineNext st l) := rfl

lemma linesOut_append (cfg : WireGuardConfig) (a b : List (List Char)) (st : SectionSt) :
    linesOut cfg (a ++ b) st = linesOut cfg a st ++ linesOut cfg b (finalState a st) := by
  induction a generalizing st with
  | nil => rfl
  | cons l a ih =>
    show emitLines cfg st l ++ linesOut cfg (a ++ b) (lineNext st l) = _
    rw [ih]
    simp [linesOut, finalState_cons, List.append_assoc]

lemma linesOut_drop_preamble (cfg : WireGuardConfig) (pre rest : List (List Char))
    (h : ∀ l ∈ pre, goTrim l ≠ [] ∧ goTrim l ≠ "[Interface]".data ∧
         goTrim l ≠ "[Peer]".data) :
    linesOut cfg (pre ++ rest) ⟨false, false⟩ = linesOut cfg rest ⟨false, false⟩ := by
  induction pre with
  | nil => rfl
  | cons l pre ih =>
    obtain ⟨h0, h1, h2⟩ := h l (List.mem_cons_self l pre)
    show emitLines cfg ⟨false, false⟩ l ++
        linesOut cfg (pre ++ rest) (lineNext ⟨false, false⟩ l) = _
    rw [emitLines_outside cfg l h1 h2 h0, lineNext_other _ _ h1 h2,
      ih (fun l2 hl2 => h l2 (List.mem_cons_of_mem _ hl2))]
    rfl

/-! ## Claims C1 and C9 -/

/-- C1: the merge output is the in-order concatenation of a per-line
emission (plus the keepalive tail), and, inside the `[Interface]` section,
the emission replaces exactly the PrivateKey-prefixed lines and passes
every other line through verbatim; inside the `[Peer]` section it replaces
exactly the PublicKey-, Endpoint-, and — only when a new pre-shared key is
supplied — PresharedKey-prefixed lines, and passes every other line
through verbatim.  (A `K` line is one whose whitespace-trimmed form starts
with `K`, matching the source's `strings.HasPrefix` test.) -/
theorem C1_merge_line_discipline (cfg : WireGuardConfig) (existingConfig : String)
    (line : List Char) (st : SectionSt) (ls : List (List Char)) :
    mergeWithExistingConfig existingConfig cfg =
      ⟨joinNL (linesOut cfg (splitNL existingConfig.data) ⟨false, false⟩) ++
        (if goContains "PersistentKeepalive".data existingConfig.data then []
         else kaLine ++ ['
'])⟩ ∧
    linesOut cfg (line :: ls) st =
      emitLines cfg st line ++ linesOut cfg ls (lineNext st line) ∧
    emitLines cfg ⟨true, false⟩ line =
      (if "PrivateKey".data.isPrefixOf (goTrim line) then [privLine cfg] else [line]) ∧
    emitLines cfg ⟨false, true⟩ line =
      (if "PublicKey".data.isPrefixOf (goTrim line) then [pubLine cfg]
       else if "PresharedKey".data.isPrefixOf (goTrim line) ∧ cfg.PeerPresharedKey ≠ "" then
         [pskLine cfg]
       else if "Endpoint".data.isPrefixOf (goTrim line) then [endpLine cfg]
       else [line]) := by
  refine ⟨rfl, rfl, ?_, ?_⟩
  · by_cases h1 : goTrim line = "[Interface]".data
    · rw [emitLines_header_iface cfg _ line h1, h1]
      rw [if_neg (by decide)]
    by_cases h2 : goTrim line = "[Peer]".data
    · rw [emitLines_header_peer cfg _ line h1 h2, h2]
      rw [if_neg (by decide)]
    by_cases h3 : goTrim line = []
    · rw [emitLines_blank cfg _ line h1 h2 h3, h3]
      rw [if_neg (by decide)]
    · exact emitLines_iface cfg line h1 h2 h3
  · by_cases h1 : goTrim line = "[Interface]".data
    · rw [emitLines_header_iface cfg _ line h1, h1]
      rw [if_neg (by decide), if_neg ?hc, if_neg (by decide)]
      case hc => rintro ⟨hp, -⟩; revert hp; decide
    by_cases h2 : goTrim line = "[Peer]".data
    · rw [emitLines_header_peer cfg _ line h1 h2, h2]
      rw [if_neg (by decide), if_neg ?hc2, if_neg (by decide)]
      case hc2 => rintro ⟨hp, -⟩; revert hp; decide
    by_cases h3 : goTrim line = []
    · rw [emitLines_blank cfg _ line h1 h2 h3, h3]
      rw [if_neg (by decide), if_neg ?hc3, if_neg (by decide)]
      case hc3 => rintro ⟨hp, -⟩; revert hp; decide
    · exact emitLines_peer cfg line h1 h2 h3

/-- C9: every non-blank line appearing before the first section header is
dropped by the merge loop: a preamble of non-blank, non-header lines
contributes nothing to the output, and `mergeWithExistingConfig` is
exactly that loop output plus the keepalive tail. -/
theorem C9_preamble_dropped (cfg : WireGuardConfig) (existingConfig : String)
    (pre rest : List (List Char))
    (h : ∀ l ∈ pre, goTrim l ≠ [] ∧ goTrim l ≠ "[Interface]".data ∧
         goTrim l ≠ "[Peer]".data) :
    linesOut cfg (pre ++ rest) ⟨false, false⟩ = linesOut cfg rest ⟨false, false⟩ ∧
    mergeWithExistingConfig existingConfig cfg =
      ⟨joinNL (linesOut cfg (splitNL existingConfig.data) ⟨false, false⟩) ++
        (if goContains "PersistentKeepalive".data existingConfig.data then []
         else kaLine ++ ['
'])⟩ :=
  ⟨linesOut_drop_preamble cfg pre rest h, rfl⟩

theorem C9_preamble_dropped_witness :
    linesOut ⟨"A", "B", "h", 1, [], "P", "", []⟩
        (["# lead comment".data] ++ ["[Interface]".data]) ⟨false, false⟩ =
      linesOut ⟨"A", "B", "h", 1, [], "P", "", []⟩ ["[Interface]".data] ⟨false, false⟩ :=
  (C9_preamble_dropped ⟨"A", "B", "h", 1, [], "P", "", []⟩ "x"
    ["# lead comment".data] ["[Interface]".data] (by decide)).1

/-! ## Split/join and prefix lemmas (shared by the C2 development) -/

lemma splitNL_ne_nil (s : List Char) : splitNL s ≠ [] := by
  induction s with
  | nil => simp [splitNL]
  | cons c cs ih =>
    simp only [splitNL]
    by_cases h : c = '\n'
    · simp [h]
    · rw [if_neg h]
      cases hsp : splitNL cs with
      | nil => exact absurd hsp ih
      | cons r rs => simp

lemma splitNL_no_newline (s : List Char) : ∀ l ∈ splitNL s, '\n' ∉ l := by
  induction s with
  | nil =>
    intro l hl
    simp [splitNL] at hl
    simp [hl]
  | cons c cs ih =>
    intro l hl
    by_cases h : c = '\n'
    · rw [show splitNL (c :: cs) = [] :: splitNL cs by simp [splitNL, h]] at hl
      rcases List.mem_cons.mp hl with h1 | h1
      · simp [h1]
      · exact ih l h1
    · simp only [splitNL, if_neg h] at hl
      cases hsp : splitNL cs with
      | nil => exact absurd hsp (splitNL_ne_nil cs)
      | cons r rs =>
        rw [hsp] at hl
        rcases List.mem_cons.mp hl with h1 | h1
        · subst h1
          intro hmem
          rcases List.mem_cons.mp hmem with h2 | h2
          · exact h h2.symm
          · exact ih r (by rw [hsp]; exact List.mem_cons_self r rs) h2
        · exact ih l (by rw [hsp]; exact List.mem_cons_of_mem r h1)

lemma splitNL_append_newline (a b : List Char) (ha : '\n' ∉ a) :
    splitNL (a ++ '\n' :: b) = a :: splitNL b := by
  induction a with
  | nil => simp [splitNL]
  | cons c a ih =>
    have hc : ¬c = '\n' := by
      intro h
      subst h
      exact ha (List.mem_cons_self _ _)
    have ha2 : '\n' ∉ a := fun h => ha (List.mem_cons_of_mem c h)
    rw [List.cons_append]
    simp only [splitNL, if_neg hc]
    rw [ih ha2]

lemma joinNL_append (a b : List (List Char)) : joinNL (a ++ b) = joinNL a ++ joinNL b := by
  induction a with
  | nil => rfl
  | cons l a ih => simp [joinNL, ih]

lemma splitNL_joinNL (lls : List (List Char)) (h : ∀ l ∈ lls, '\n' ∉ l) :
    splitNL (joinNL lls) = lls ++ [[]] := by
  induction lls with
  | nil => rfl
  | cons l ls ih =>
    have h1 : '\n' ∉ l := h l (List.mem_cons_self _ _)
    have h2 : ∀ x ∈ ls, '\n' ∉ x := fun x hx => h x (List.mem_cons_of_mem _ hx)
    show splitNL (l ++ '\n' :: joinNL ls) = (l :: ls) ++ [[]]
    rw [splitNL_append_newline l _ h1, ih h2]
    rfl

lemma isPrefixOf_self_append (n z : List Char) : n.isPrefixOf (n ++ z) = true := by
  induction n with
  | nil => simp
  | cons c n ih => simp [List.isPrefixOf_cons₂, ih]

lemma isPrefixOf_append_of_le (n h x : List Char) (hle : n.length ≤ h.length) :
    n.isPrefixOf (h ++ x) = n.isPrefixOf h := by
  induction n generalizing h with
  | nil => simp
  | cons c n ih =>
    cases h with
    | nil => simp at hle
    | cons d h =>
      rw [List.cons_append, List.isPrefixOf_cons₂, List.isPrefixOf_cons₂,
        ih h (by simpa using hle)]

lemma isPrefixOf_cons_of_ne (a b : Char) (as bs : List Char) (h : a ≠ b) :
    (a :: as).isPrefixOf (b :: bs) = false := by
  rw [List.isPrefixOf_cons₂]
  simp [h]

lemma cons_append_ne (a b : Char) (as z bs : List Char) (h : a ≠ b) :
    (a :: as) ++ z ≠ b :: bs := by
  intro he
  rw [List.cons_append] at he
  exact h (List.cons.inj he).1

/-! ## TrimSpace lemmas -/

lemma dropWhile_all_false (f : Char → Bool) (l : List Char) (h : ∀ c ∈ l, f c = false) :
    l.dropWhile f = l := by
  induction l with
  | nil => rfl
  | cons c t ih =>
    rw [List.dropWhile_cons, h c (List.mem_cons_self _ _)]
    simp [ih fun x hx => h x (List.mem_cons_of_mem c hx)]

lemma goTrimRight_append (p rest : List Char) (hp : ∀ c ∈ p, goIsSpace c = false) :
    goTrimRight (p ++ rest) = p ++ goTrimRight rest := by
  unfold goTrimRight
  rw [List.reverse_append, List.dropWhile_append]
  by_cases h : (rest.reverse.dropWhile goIsSpace).isEmpty
  · rw [if_pos h]
    have hall : ∀ c ∈ p.reverse, goIsSpace c = false := fun c hc =>
      hp c (List.mem_reverse.mp hc)
    rw [dropWhile_all_false _ _ hall, List.reverse_reverse,
      List.isEmpty_iff.mp h]
    simp
  · rw [if_neg h, List.reverse_append, List.reverse_reverse]

lemma goTrim_keyword (c : Char) (p rest : List Char)
    (hp : ∀ x ∈ c :: p, goIsSpace x = false) :
    goTrim ((c :: p) ++ rest) = (c :: p) ++ goTrimRight rest := by
  unfold goTrim
  have hc : goIsSpace c = false := hp c (List.mem_cons_self _ _)
  have hdw : ((c :: p) ++ rest).dropWhile goIsSpace = (c :: p) ++ rest := by
    rw [List.cons_append, List.dropWhile_cons, hc]
    simp
  rw [hdw]
  exact goTrimRight_append _ _ hp

/-! ## Shape of the replacement lines under TrimSpace -/

lemma goTrim_kw_line (kw tail0 : List Char) (c : Char) (p : List Char)
    (hkw : kw = c :: p) (hp : ∀ x ∈ c :: p, goIsSpace x = false) :
    goTrim (kw ++ tail0) = kw ++ goTrimRight tail0 := by
  subst hkw
  exact goTrim_keyword c p tail0 hp

lemma goTrim_privLine (cfg : WireGuardConfig) :
    goTrim (privLine cfg) =
      "PrivateKey".data ++ goTrimRight (" = ".data ++ cfg.PrivateKey.data) := by
  have h0 : privLine cfg = "PrivateKey".data ++ (" = ".data ++ cfg.PrivateKey.data) := by
    show "PrivateKey = ".data ++ cfg.PrivateKey.data = _
    rw [show "PrivateKey = ".data = "PrivateKey".data ++ " = ".data by decide,
      List.append_assoc]
  rw [h0, goTrim_kw_line "PrivateKey".data _ 'P' "rivateKey".data (by decide) (by decide)]

lemma goTrim_pubLine (cfg : WireGuardConfig) :
    goTrim (pubLine cfg) =
      "PublicKey".data ++ goTrimRight (" = ".data ++ cfg.PeerPublicKey.data) := by
  have h0 : pubLine cfg = "PublicKey".data ++ (" = ".data ++ cfg.PeerPublicKey.data) := by
    show "PublicKey = ".data ++ cfg.PeerPublicKey.data = _
    rw [show "PublicKey = ".data = "PublicKey".data ++ " = ".data by decide,
      List.append_assoc]
  rw [h0, goTrim_kw_line "PublicKey".data _ 'P' "ublicKey".data (by decide) (by decide)]

lemma goTrim_pskLine (cfg : WireGuardConfig) :
    goTrim (pskLine cfg) =
      "PresharedKey".data ++ goTrimRight (" = ".data ++ cfg.PeerPresharedKey.data) := by
  have h0 : pskLine cfg = "PresharedKey".data ++ (" = ".data ++ cfg.PeerPresharedKey.data) := by
    show "PresharedKey = ".data ++ cfg.PeerPresharedKey.data = _
    rw [show "PresharedKey = ".data = "PresharedKey".data ++ " = ".data by decide,
      List.append_assoc]
  rw [h0, goTrim_kw_line "PresharedKey".data _ 'P' "resharedKey".data (by decide) (by decide)]

lemma goTrim_endpLine (cfg : WireGuardConfig) :
    goTrim (endpLine cfg) =
      "Endpoint".data ++
        goTrimRight (" = ".data ++
          (cfg.Endpoint.data ++ ':' :: (Int.repr cfg.EndpointPort).data)) := by
  have h0 : endpLine cfg =
      "Endpoint".data ++
        (" = ".data ++ (cfg.Endpoint.data ++ ':' :: (Int.repr cfg.EndpointPort).data)) := by
    show "Endpoint = ".data ++ cfg.Endpoint.data ++ ':' :: (Int.repr cfg.EndpointPort).data = _
    rw [show "Endpoint = ".data = "Endpoint".data ++ " = ".data by decide]
    simp [List.append_assoc]
  rw [h0, goTrim_kw_line "Endpoint".data _ 'E' "ndpoint".data (by decide) (by decide)]

lemma kw_append_ne_of_head (kw z w : List Char) (hkw : kw ≠ []) (hw : w ≠ [])
    (hne : kw.head? ≠ w.head?) : kw ++ z ≠ w := by
  cases kw with
  | nil => exact absurd rfl hkw
  | cons c p =>
    cases w with
    | nil => exact absurd rfl hw
    | cons b bs =>
      refine cons_append_ne c b p z bs ?_
      intro h
      apply hne
      simp [h]

lemma kw_append_ne_nil (kw z : List Char) (hkw : kw ≠ []) : kw ++ z ≠ [] := by
  intro h
  exact hkw (List.append_eq_nil.mp h).1

lemma isPrefixOf_append_head_ne (n kw z : List Char) (hn : n.head? ≠ none)
    (hkw : kw.head? ≠ none) (hne : n.head? ≠ kw.head?) :
    n.isPrefixOf (kw ++ z) = false := by
  cases n with
  | nil => simp at hn
  | cons a as =>
    cases kw with
    | nil => simp at hkw
    | cons b bs =>
      rw [List.cons_append]
      refine isPrefixOf_cons_of_ne a b as (bs ++ z) ?_
      intro h
      apply hne
      simp [h]

/-! ## Stability of the replacement lines under re-merging -/

lemma stable_priv (cfg : WireGuardConfig) :
    emitLines cfg ⟨true, false⟩ (privLine cfg) = [privLine cfg] ∧
    (∀ st, lineNext st (privLine cfg) = st) := by
  have h1 : goTrim (privLine cfg) ≠ "[Interface]".data := by
    rw [goTrim_privLine]
    exact kw_append_ne_of_head _ _ _ (by decide) (by decide) (by decide)
  have h2 : goTrim (privLine cfg) ≠ "[Peer]".data := by
    rw [goTrim_privLine]
    exact kw_append_ne_of_head _ _ _ (by decide) (by decide) (by decide)
  have h3 : goTrim (privLine cfg) ≠ [] := by
    rw [goTrim_privLine]
    exact kw_append_ne_nil _ _ (by decide)
  have hpre : "PrivateKey".data.isPrefixOf (goTrim (privLine cfg)) = true := by
    rw [goTrim_privLine]
    exact isPrefixOf_self_append _ _
  exact ⟨by rw [emitLines_iface cfg _ h1 h2 h3, if_pos hpre],
         fun st => lineNext_other st _ h1 h2⟩

lemma stable_pub (cfg : WireGuardConfig) :
    emitLines cfg ⟨false, true⟩ (pubLine cfg) = [pubLine cfg] ∧
    (∀ st, lineNext st (pubLine cfg) = st) := by
  have h1 : goTrim (pubLine cfg) ≠ "[Interface]".data := by
    rw [goTrim_pubLine]
    exact kw_append_ne_of_head _ _ _ (by decide) (by decide) (by decide)
  have h2 : goTrim (pubLine cfg) ≠ "[Peer]".data := by
    rw [goTrim_pubLine]
    exact kw_append_ne_of_head _ _ _ (by decide) (by decide) (by decide)
  have h3 : goTrim (pubLine cfg) ≠ [] := by
    rw [goTrim_pubLine]
    exact kw_append_ne_nil _ _ (by decide)
  have hpre : "PublicKey".data.isPrefixOf (goTrim (pubLine cfg)) = true := by
    rw [goTrim_pubLine]
    exact isPrefixOf_self_append _ _
  exact ⟨by rw [emitLines_peer cfg _ h1 h2 h3, if_pos hpre],
         fun st => lineNext_other st _ h1 h2⟩

lemma stable_psk (cfg : WireGuardConfig) (hne : cfg.PeerPresharedKey ≠ "") :
    emitLines cfg ⟨false, true⟩ (pskLine cfg) = [pskLine cfg] ∧
    (∀ st, lineNext st (pskLine cfg) = st) := by
  have h1 : goTrim (pskLine cfg) ≠ "[Interface]".data := by
    rw [goTrim_pskLine]
    exact kw_append_ne_of_head _ _ _ (by decide) (by decide) (by decide)
  have h2 : goTrim (pskLine cfg) ≠ "[Peer]".data := by
    rw [goTrim_pskLine]
    exact kw_append_ne_of_head _ _ _ (by decide) (by decide) (by decide)
  have h3 : goTrim (pskLine cfg) ≠ [] := by
    rw [goTrim_pskLine]
    exact kw_append_ne_nil _ _ (by decide)
  have hnpub : ¬("PublicKey".data.isPrefixOf (goTrim (pskLine cfg)) = true) := by
    rw [goTrim_pskLine, isPrefixOf_append_of_le _ _ _ (by decide)]
    decide
  have hpre : "PresharedKey".data.isPrefixOf (goTrim (pskLine cfg)) = true := by
    rw [goTrim_pskLine]
    exact isPrefixOf_self_append _ _
  exact ⟨by rw [emitLines_peer cfg _ h1 h2 h3, if_neg hnpub, if_pos ⟨hpre, hne⟩],
         fun st => lineNext_other st _ h1 h2⟩

lemma stable_endp (cfg : WireGuardConfig) :
    emitLines cfg ⟨false, true⟩ (endpLine cfg) = [endpLine cfg] ∧
    (∀ st, lineNext st (endpLine cfg) = st) := by
  have h1 : goTrim (endpLine cfg) ≠ "[Interface]".data := by
    rw [goTrim_endpLine]
    exact kw_append_ne_of_head _ _ _ (by decide) (by decide) (by decide)
  have h2 : goTrim (endpLine cfg) ≠ "[Peer]".data := by
    rw [goTrim_endpLine]
    exact kw_append_ne_of_head _ _ _ (by decide) (by decide) (by decide)
  have h3 : goTrim (endpLine cfg) ≠ [] := by
    rw [goTrim_endpLine]
    exact kw_append_ne_nil _ _ (by decide)
  have hnpub : ¬("PublicKey".data.isPrefixOf (goTrim (endpLine cfg)) = true) := by
    rw [goTrim_endpLine, isPrefixOf_append_head_ne _ _ _ (by decide) (by decide) (by decide)]
    decide
  have hnpsk : ¬("PresharedKey".data.isPrefixOf (goTrim (endpLine cfg)) = true ∧
      cfg.PeerPresharedKey ≠ "") := by
    rintro ⟨hp, -⟩
    rw [goTrim_endpLine,
      isPrefixOf_append_head_ne _ _ _ (by decide) (by decide) (by decide)] at hp
    exact Bool.noConfusion hp
  have hpre : "Endpoint".data.isPrefixOf (goTrim (endpLine cfg)) = true := by
    rw [goTrim_endpLine]
    exact isPrefixOf_self_append _ _
  exact ⟨by rw [emitLines_peer cfg _ h1 h2 h3, if_neg hnpub, if_neg hnpsk, if_pos hpre],
         fun st => lineNext_other st _ h1 h2⟩

lemma stable_ka (cfg : WireGuardConfig) (st : SectionSt)
    (h : st = ⟨true, false⟩ ∨ st = ⟨false, true⟩) :
    emitLines cfg st kaLine = [kaLine] ∧ lineNext st kaLine = st := by
  have h1 : goTrim kaLine ≠ "[Interface]".data := by decide
  have h2 : goTrim kaLine ≠ "[Peer]".data := by decide
  have h3 : goTrim kaLine ≠ [] := by decide
  refine ⟨?_, lineNext_other st _ h1 h2⟩
  rcases h with h | h <;> subst h
  · rw [emitLines_iface cfg _ h1 h2 h3, if_neg (by decide)]
  · rw [emitLines_peer cfg _ h1 h2 h3, if_neg (by decide), if_neg ?_, if_neg (by decide)]
    rintro ⟨hp, -⟩
    revert hp
    decide

/-! ## Section-state bookkeeping -/

lemma lineNext_cases (st : SectionSt) (l : List Char) :
    lineNext st l = st ∨ lineNext st l = ⟨true, false⟩ ∨ lineNext st l = ⟨false, true⟩ := by
  by_cases hI : goTrim l = "[Interface]".data
  · right; left; exact lineNext_header_iface st l hI
  by_cases hP : goTrim l = "[Peer]".data
  · right; right; exact lineNext_header_peer st l hI hP
  · left; exact lineNext_other st l hI hP

lemma lineNext_sane (st : SectionSt) (l : List Char)
    (hs : st = ⟨false, false⟩ ∨ st = ⟨true, false⟩ ∨ st = ⟨false, true⟩) :
    lineNext st l = ⟨false, false⟩ ∨ lineNext st l = ⟨true, false⟩ ∨
      lineNext st l = ⟨false, true⟩ := by
  rcases lineNext_cases st l with h | h | h
  · rw [h]; exact hs
  · rw [h]; right; left; rfl
  · rw [h]; right; right; rfl

lemma lineNext_insec (st : SectionSt) (l : List Char)
    (hs : st = ⟨true, false⟩ ∨ st = ⟨false, true⟩) :
    lineNext st l = ⟨true, false⟩ ∨ lineNext st l = ⟨false, true⟩ := by
  rcases lineNext_cases st l with h | h | h
  · rw [h]; exact hs
  · rw [h]; left; rfl
  · rw [h]; right; rfl

lemma finalState_insec (ls : List (List Char)) (st : SectionSt)
    (hs : st = ⟨true, false⟩ ∨ st = ⟨false, true⟩) :
    finalState ls st = ⟨true, false⟩ ∨ finalState ls st = ⟨false, true⟩ := by
  induction ls generalizing st with
  | nil => exact hs
  | cons l ls ih =>
    rw [finalState_cons]
    exact ih _ (lineNext_insec st l hs)

lemma finalState_insec_of_header (ls : List (List Char)) (st : SectionSt)
    (h : ∃ l ∈ ls, goTrim l = "[Interface]".data ∨ goTrim l = "[Peer]".data) :
    finalState ls st = ⟨true, false⟩ ∨ finalState ls st = ⟨false, true⟩ := by
  induction ls generalizing st with
  | nil => simp at h
  | cons l ls ih =>
    rw [finalState_cons]
    rcases h with ⟨w, hw, hcase⟩
    rcases List.mem_cons.mp hw with rfl | hw2
    · rcases hcase with hc | hc
      · exact finalState_insec ls _ (by rw [lineNext_header_iface st w hc]; left; rfl)
      · by_cases hI : goTrim w = "[Interface]".data
        · exact finalState_insec ls _ (by rw [lineNext_header_iface st w hI]; left; rfl)
        · exact finalState_insec ls _ (by rw [lineNext_header_peer st w hI hc]; right; rfl)
    · exact ih _ ⟨w, hw2, hcase⟩

lemma finalState_append (a b : List (List Char)) (st : SectionSt) :
    finalState (a ++ b) st = finalState b (finalState a st) := by
  simp [finalState, List.foldl_append]

/-! ## Re-merging reproduces the merge output line for line -/

lemma emit_refold (cfg : WireGuardConfig) (st : SectionSt) (l : List Char)
    (hs : st = ⟨false, false⟩ ∨ st = ⟨true, false⟩ ∨ st = ⟨false, true⟩) :
    linesOut cfg (emitLines cfg st l) st = emitLines cfg st l ∧
    finalState (emitLines cfg st l) st = lineNext st l := by
  have single : ∀ (x : List Char), emitLines cfg st x = [x] →
      linesOut cfg [x] st = [x] ∧ finalState [x] st = lineNext st x := by
    intro x hx
    constructor
    · show emitLines cfg st x ++ linesOut cfg [] (lineNext st x) = [x]
      rw [hx]
      rfl
    · rfl
  by_cases hI : goTrim l = "[Interface]".data
  · have he := emitLines_header_iface cfg st l hI
    rw [he]
    exact single l he
  by_cases hP : goTrim l = "[Peer]".data
  · have he := emitLines_header_peer cfg st l hI hP
    rw [he]
    exact single l he
  by_cases hE : goTrim l = []
  · have he := emitLines_blank cfg st l hI hP hE
    rw [he]
    exact single l he
  have hnx : lineNext st l = st := lineNext_other st l hI hP
  rcases hs with h | h | h <;> subst h
  · rw [emitLines_outside cfg l hI hP hE]
    exact ⟨rfl, hnx.symm⟩
  · by_cases hpriv : "PrivateKey".data.isPrefixOf (goTrim l) = true
    · have he : emitLines cfg ⟨true, false⟩ l = [privLine cfg] := by
        rw [emitLines_iface cfg l hI hP hE, if_pos hpriv]
      rw [he]
      obtain ⟨hemit, hnext⟩ := stable_priv cfg
      refine ⟨?_, ?_⟩
      · show emitLines cfg ⟨true, false⟩ (privLine cfg) ++
            linesOut cfg [] (lineNext ⟨true, false⟩ (privLine cfg)) = [privLine cfg]
        rw [hemit]
        rfl
      · show lineNext ⟨true, false⟩ (privLine cfg) = lineNext ⟨true, false⟩ l
        rw [hnext, hnx]
    · have he : emitLines cfg ⟨true, false⟩ l = [l] := by
        rw [emitLines_iface cfg l hI hP hE, if_neg hpriv]
      rw [he]
      exact single l he
  · by_cases hpub : "PublicKey".data.isPrefixOf (goTrim l) = true
    · have he : emitLines cfg ⟨false, true⟩ l = [pubLine cfg] := by
        rw [emitLines_peer cfg l hI hP hE, if_pos hpub]
      rw [he]
      obtain ⟨hemit, hnext⟩ := stable_pub cfg
      refine ⟨?_, ?_⟩
      · show emitLines cfg ⟨false, true⟩ (pubLine cfg) ++
            linesOut cfg [] (lineNext ⟨false, true⟩ (pubLine cfg)) = [pubLine cfg]
        rw [hemit]
        rfl
      · show lineNext ⟨false, true⟩ (pubLine cfg) = lineNext ⟨false, true⟩ l
        rw [hnext, hnx]
    by_cases hpskc : "PresharedKey".data.isPrefixOf (goTrim l) = true ∧
        cfg.PeerPresharedKey ≠ ""
    · have he : emitLines cfg ⟨false, true⟩ l = [pskLine cfg] := by
        rw [emitLines_peer cfg l hI hP hE, if_neg hpub, if_pos hpskc]
      rw [he]
      obtain ⟨hemit, hnext⟩ := stable_psk cfg hpskc.2
      refine ⟨?_, ?_⟩
      · show emitLines cfg ⟨false, true⟩ (pskLine cfg) ++
            linesOut cfg [] (lineNext ⟨false, true⟩ (pskLine cfg)) = [pskLine cfg]
        rw [hemit]
        rfl
      · show lineNext ⟨false, true⟩ (pskLine cfg) = lineNext ⟨false, true⟩ l
        rw [hnext, hnx]
    by_cases hend : "Endpoint".data.isPrefixOf (goTrim l) = true
    · have he : emitLines cfg ⟨false, true⟩ l = [endpLine cfg] := by
        rw [emitLines_peer cfg l hI hP hE, if_neg hpub, if_neg hpskc, if_pos hend]
      rw [he]
      obtain ⟨hemit, hnext⟩ := stable_endp cfg
      refine ⟨?_, ?_⟩
      · show emitLines cfg ⟨false, true⟩ (endpLine cfg) ++
            linesOut cfg [] (lineNext ⟨false, true⟩ (endpLine cfg)) = [endpLine cfg]
        rw [hemit]
        rfl
      · show lineNext ⟨false, true⟩ (endpLine cfg) = lineNext ⟨false, true⟩ l
        rw [hnext, hnx]
    · have he : emitLines cfg ⟨false, true⟩ l = [l] := by
        rw [emitLines_peer cfg l hI hP hE, if_neg hpub, if_neg hpskc, if_neg hend]
      rw [he]
      exact single l he

lemma linesOut_reprocess (cfg : WireGuardConfig) (ls : List (List Char)) (st : SectionSt)
    (hs : st = ⟨false, false⟩ ∨ st = ⟨true, false⟩ ∨ st = ⟨false, true⟩) :
    linesOut cfg (linesOut cfg ls st) st = linesOut cfg ls st ∧
    finalState (linesOut cfg ls st) st = finalState ls st := by
  induction ls generalizing st with
  | nil => exact ⟨rfl, rfl⟩
  | cons l ls ih =>
    obtain ⟨ihA, ihB⟩ := ih (lineNext st l) (lineNext_sane st l hs)
    obtain ⟨eA, eB⟩ := emit_refold cfg st l hs
    constructor
    · show linesOut cfg (emitLines cfg st l ++ linesOut cfg ls (lineNext st l)) st = _
      rw [linesOut_append, eA, eB, ihA]
      rfl
    · show finalState (emitLines cfg st l ++ linesOut cfg ls (lineNext st l)) st = _
      rw [finalState_append, eB, ihB, finalState_cons]

/-! ## Newline-freeness of emitted lines, and `strings.Contains` lemmas -/

lemma noNL_append (a b : List Char) (ha : '\n' ∉ a) (hb : '\n' ∉ b) : '\n' ∉ a ++ b := by
  intro h
  rcases List.mem_append.mp h with h | h
  · exact ha h
  · exact hb h

lemma emitLines_noNL (cfg : WireGuardConfig) (st : SectionSt) (l : List Char)
    (hl : '\n' ∉ l)
    (h1 : '\n' ∉ cfg.PrivateKey.data) (h2 : '\n' ∉ cfg.PeerPublicKey.data)
    (h3 : '\n' ∉ cfg.PeerPresharedKey.data) (h4 : '\n' ∉ cfg.Endpoint.data)
    (h5 : '\n' ∉ (Int.repr cfg.EndpointPort).data) :
    ∀ x ∈ emitLines cfg st l, '\n' ∉ x := by
  have hpriv : '\n' ∉ privLine cfg := noNL_append _ _ (by decide) h1
  have hpub : '\n' ∉ pubLine cfg := noNL_append _ _ (by decide) h2
  have hpsk : '\n' ∉ pskLine cfg := noNL_append _ _ (by decide) h3
  have hcolon : '\n' ∉ (':' :: (Int.repr cfg.EndpointPort).data) := by
    intro h
    rcases List.mem_cons.mp h with h | h
    · exact absurd h (by decide)
    · exact h5 h
  have hendp : '\n' ∉ endpLine cfg := by
    have he : endpLine cfg =
        "Endpoint = ".data ++
          (cfg.Endpoint.data ++ ':' :: (Int.repr cfg.EndpointPort).data) := by
      simp [endpLine, List.append_assoc]
    rw [he]
    exact noNL_append _ _ (by decide) (noNL_append _ _ h4 hcolon)
  intro x hx
  by_cases hI : goTrim l = "[Interface]".data
  · rw [emitLines_header_iface cfg st l hI, List.mem_singleton] at hx
    subst hx
    exact hl
  by_cases hP : goTrim l = "[Peer]".data
  · rw [emitLines_header_peer cfg st l hI hP, List.mem_singleton] at hx
    subst hx
    exact hl
  by_cases hE : goTrim l = []
  · rw [emitLines_blank cfg st l hI hP hE, List.mem_singleton] at hx
    subst hx
    exact hl
  · simp only [emitLines, if_neg hI, if_neg hP, if_neg hE] at hx
    rcases List.mem_append.mp hx with hx | hx
    · split at hx
      · split at hx
        · rw [List.mem_singleton] at hx
          subst hx
          exact hpriv
        · rw [List.mem_singleton] at hx
          subst hx
          exact hl
      · simp at hx
    · split at hx
      · split at hx
        · rw [List.mem_singleton] at hx
          subst hx
          exact hpub
        · split at hx
          · rw [List.mem_singleton] at hx
            subst hx
            exact hpsk
          · split at hx
            · rw [List.mem_singleton] at hx
              subst hx
              exact hendp
            · rw [List.mem_singleton] at hx
              subst hx
              exact hl
      · simp at hx

lemma linesOut_noNL (cfg : WireGuardConfig) (ls : List (List Char)) (st : SectionSt)
    (hls : ∀ l ∈ ls, '\n' ∉ l)
    (h1 : '\n' ∉ cfg.PrivateKey.data) (h2 : '\n' ∉ cfg.PeerPublicKey.data)
    (h3 : '\n' ∉ cfg.PeerPresharedKey.data) (h4 : '\n' ∉ cfg.Endpoint.data)
    (h5 : '\n' ∉ (Int.repr cfg.EndpointPort).data) :
    ∀ x ∈ linesOut cfg ls st, '\n' ∉ x := by
  induction ls generalizing st with
  | nil =>
    intro x hx
    simp [linesOut] at hx
  | cons l ls ih =>
    intro x hx
    have hx2 : x ∈ emitLines cfg st l ++ linesOut cfg ls (lineNext st l) := hx
    rcases List.mem_append.mp hx2 with hx3 | hx3
    · exact emitLines_noNL cfg st l (hls l (List.mem_cons_self _ _)) h1 h2 h3 h4 h5 x hx3
    · exact ih _ (fun y hy => hls y (List.mem_cons_of_mem _ hy)) x hx3

lemma goContains_append_right (needle a b : List Char)
    (h : goContains needle b = true) : goContains needle (a ++ b) = true := by
  induction a with
  | nil => exact h
  | cons c a ih => simp [List.cons_append, goContains, ih]

lemma goContains_of_startsWith (needle l : List Char) (h : needle.isPrefixOf l = true) :
    goContains needle l = true := by
  cases l with
  | nil =>
    cases needle with
    | nil => rfl
    | cons c t => simp at h
  | cons c t => simp [goContains, h]

/-! ## Claim C2 -/

/-- C2 as stated is false: merging twice with the same credentials is not
byte-identical to merging once.  At the configuration text
`"[Peer]\nPersistentKeepalive = 25"` the first merge produces output
ending in a newline; the second merge re-reads that trailing newline as an
extra empty line and emits one more `"\n"`, so the outputs differ. -/
theorem C2_counterexample :
    mergeWithExistingConfig
        (mergeWithExistingConfig "[Peer]\nPersistentKeepalive = 25"
          ⟨"A", "B", "h", 1, [], "P", "", []⟩)
        ⟨"A", "B", "h", 1, [], "P", "", []⟩ ≠
      mergeWithExistingConfig "[Peer]\nPersistentKeepalive = 25"
        ⟨"A", "B", "h", 1, [], "P", "", []⟩ := by
  decide

/-- C2 amended: the second merge is the first plus exactly one extra
trailing newline.  Hypotheses: the substituted credential fields print
without newlines; the existing text has at least one section header (so
the appended keepalive line, if any, lands inside a section); and if the
existing text already mentions `PersistentKeepalive`, the first merge
output still does.  Under these, `merge (merge t cfg) cfg = merge t cfg ++
"\n"` — in particular byte-identical idempotence always fails. -/
theorem C2_merge_second_pass_adds_newline (cfg : WireGuardConfig) (t : String)
    (hpriv : '\n' ∉ cfg.PrivateKey.data) (hpub : '\n' ∉ cfg.PeerPublicKey.data)
    (hpsk : '\n' ∉ cfg.PeerPresharedKey.data) (hep : '\n' ∉ cfg.Endpoint.data)
    (hport : '\n' ∉ (Int.repr cfg.EndpointPort).data)
    (hheader : ∃ l ∈ splitNL t.data,
      goTrim l = "[Interface]".data ∨ goTrim l = "[Peer]".data)
    (hka : goContains "PersistentKeepalive".data t.data = true →
      goContains "PersistentKeepalive".data (mergeWithExistingConfig t cfg).data = true) :
    mergeWithExistingConfig (mergeWithExistingConfig t cfg) cfg =
      mergeWithExistingConfig t cfg ++ "\n" := by
  have hOnoNL : ∀ x ∈ linesOut cfg (splitNL t.data) ⟨false, false⟩, '\n' ∉ x :=
    linesOut_noNL cfg _ _ (splitNL_no_newline t.data) hpriv hpub hpsk hep hport
  have hdata : (mergeWithExistingConfig t cfg).data =
      joinNL (linesOut cfg (splitNL t.data) ⟨false, false⟩ ++
        (if goContains "PersistentKeepalive".data t.data = true then [] else [kaLine])) := by
    show joinNL (linesOut cfg (splitNL t.data) ⟨false, false⟩) ++
        (if goContains "PersistentKeepalive".data t.data then [] else kaLine ++ ['\n']) = _
    by_cases hc : goContains "PersistentKeepalive".data t.data = true
    · rw [if_pos hc, if_pos hc]
      simp
    · rw [if_neg hc, if_neg hc, joinNL_append]
      simp [joinNL]
  have hKTnoNL : ∀ x ∈ (if goContains "PersistentKeepalive".data t.data = true then
      ([] : List (List Char)) else [kaLine]), '\n' ∉ x := by
    by_cases hc : goContains "PersistentKeepalive".data t.data = true
    · rw [if_pos hc]
      intro x hx
      simp at hx
    · rw [if_neg hc]
      intro x hx
      rw [List.mem_singleton] at hx
      subst hx
      decide
  have hsplit : splitNL ((mergeWithExistingConfig t cfg).data) =
      (linesOut cfg (splitNL t.data) ⟨false, false⟩ ++
        (if goContains "PersistentKeepalive".data t.data = true then [] else [kaLine])) ++
        [[]] := by
    rw [hdata]
    exact splitNL_joinNL _
      (fun x hx => (List.mem_append.mp hx).elim (hOnoNL x) (hKTnoNL x))
  obtain ⟨hre, hfs⟩ := linesOut_reprocess cfg (splitNL t.data) ⟨false, false⟩ (Or.inl rfl)
  have hblank : ∀ st2, linesOut cfg [[]] st2 = [[]] := by
    intro st2
    show emitLines cfg st2 [] ++ linesOut cfg [] (lineNext st2 []) = [[]]
    rw [emitLines_blank cfg st2 [] (by decide) (by decide) (by decide)]
    rfl
  have hKTproc :
      linesOut cfg
          (if goContains "PersistentKeepalive".data t.data = true then
            ([] : List (List Char)) else [kaLine])
          (finalState (linesOut cfg (splitNL t.data) ⟨false, false⟩) ⟨false, false⟩) =
        (if goContains "PersistentKeepalive".data t.data = true then
          ([] : List (List Char)) else [kaLine]) := by
    by_cases hc : goContains "PersistentKeepalive".data t.data = true
    · rw [if_pos hc]
      rfl
    · rw [if_neg hc]
      have hin : finalState (linesOut cfg (splitNL t.data) ⟨false, false⟩) ⟨false, false⟩ =
          (⟨true, false⟩ : SectionSt) ∨
          finalState (linesOut cfg (splitNL t.data) ⟨false, false⟩) ⟨false, false⟩ =
          (⟨false, true⟩ : SectionSt) := by
        rw [hfs]
        exact finalState_insec_of_header _ _ hheader
      obtain ⟨hemit, -⟩ := stable_ka cfg _ hin
      show emitLines cfg _ kaLine ++ linesOut cfg [] _ = [kaLine]
      rw [hemit]
      rfl
  have hproc : linesOut cfg (splitNL ((mergeWithExistingConfig t cfg).data)) ⟨false, false⟩ =
      (linesOut cfg (splitNL t.data) ⟨false, false⟩ ++
        (if goContains "PersistentKeepalive".data t.data = true then [] else [kaLine])) ++
        [[]] := by
    rw [hsplit, linesOut_append, linesOut_append, hre, hKTproc, hblank]
  have hcont2 : goContains "PersistentKeepalive".data
      ((mergeWithExistingConfig t cfg).data) = true := by
    by_cases hc : goContains "PersistentKeepalive".data t.data = true
    · exact hka hc
    · rw [hdata, if_neg hc, joinNL_append]
      exact goContains_append_right _ _ _ (goContains_of_startsWith _ _ (by decide))
  apply String.ext
  show joinNL (linesOut cfg (splitNL ((mergeWithExistingConfig t cfg).data)) ⟨false, false⟩) ++
      (if goContains "PersistentKeepalive".data ((mergeWithExistingConfig t cfg).data) then []
       else kaLine ++ ['\n']) =
    (mergeWithExistingConfig t cfg ++ "\n").data
  rw [hproc, if_pos hcont2, List.append_nil, joinNL_append, String.data_append, hdata]
  rfl

theorem C2_merge_second_pass_adds_newline_witness :
    mergeWithExistingConfig
        (mergeWithExistingConfig "[Peer]\nPublicKey = old"
          ⟨"A", "B", "h", 1, [], "P", "", []⟩)
        ⟨"A", "B", "h", 1, [], "P", "", []⟩ =
      mergeWithExistingConfig "[Peer]\nPublicKey = old"
        ⟨"A", "B", "h", 1, [], "P", "", []⟩ ++ "\n" :=
  C2_merge_second_pass_adds_newline ⟨"A", "B", "h", 1, [], "P", "", []⟩
    "[Peer]\nPublicKey = old" (by decide) (by decide) (by decide) (by decide)
    (by decide) (by decide) (by decide)

/-! ## Claims C6 and C7 -/

/-- C6: when the target configuration file exists, a run of `UpdateConfig`
that reaches the backup step records a backup whose content equals the
pre-write content of the target; whenever the target is modified at all,
that backup has been recorded (backup-before-write); and if writing the
backup fails, `UpdateConfig` returns an error with the filesystem — in
particular the target — unchanged. -/
theorem C6_backup_before_write (fs : FileSystem) (faults : IOFaults)
    (cfg : WireGuardConfig) (content : String) (hT : fs.target = some content) :
    (faults.mkdirFails = false → faults.readFails = false →
      faults.backupWriteFails = true →
      UpdateConfig fs faults cfg = (.error "failed to create backup", fs)) ∧
    (faults.mkdirFails = false → faults.readFails = false →
      faults.backupWriteFails = false →
      (UpdateConfig fs faults cfg).2.backups = content :: fs.backups) ∧
    ((UpdateConfig fs faults cfg).2.target ≠ fs.target →
      (UpdateConfig fs faults cfg).2.backups = content :: fs.backups) := by
  obtain ⟨mk, rd, bk, cw⟩ := faults
  refine ⟨fun h1 h2 h3 => ?_, fun h1 h2 h3 => ?_, fun hne => ?_⟩
  · subst h1
    subst h2
    subst h3
    simp [UpdateConfig, hT]
  · subst h1
    subst h2
    subst h3
    cases cw <;> simp [UpdateConfig, hT]
  · cases mk <;> cases rd <;> cases bk <;> cases cw <;>
      simp_all [UpdateConfig, hT]

theorem C6_backup_before_write_witness :
    UpdateConfig ⟨some "old", []⟩ ⟨false, false, true, false⟩
        ⟨"A", "B", "h", 1, [], "P", "", []⟩ =
      (.error "failed to create backup", ⟨some "old", []⟩) :=
  (C6_backup_before_write ⟨some "old", []⟩ ⟨false, false, true, false⟩
    ⟨"A", "B", "h", 1, [], "P", "", []⟩ "old" rfl).1 rfl rfl rfl

/-- C7 is contradicted by the code: with no prior configuration file and a
credential set whose private key is empty, rendering returns the empty
string, and `UpdateConfig` writes that empty string to the target and
returns success — it does not treat the empty render result as an error. -/
theorem C7_empty_render_written :
    buildWireGuardConfig ⟨"", "LOCPUB", "host", 2408, [], "PEER", "", []⟩ = "" ∧
    UpdateConfig ⟨none, []⟩ ⟨false, false, false, false⟩
        ⟨"", "LOCPUB", "host", 2408, [], "PEER", "", []⟩ =
      (.ok (), ⟨some "", []⟩) :=
  ⟨rfl, rfl⟩

end Cfwg
